import Mathlib

/-!
Shallow embedding of the grid interaction engine of `svelte-tablecn`
(`src/lib/hooks/use-data-grid.svelte.ts` and the shared type/key module
`src/lib/types/data-grid.ts`), together with theorems settling the spec
claims about cell addressing, navigation, selection, editing, clipboard
and search.

JavaScript numbers that hold row/column indices are modelled as `Int`
(every value the engine produces for them is integral); strings are Lean
`String`s manipulated through their character lists.
-/

namespace DataGrid

/-! ### JavaScript string/number primitives used by the source -/

/-- Decimal digit character, `d < 10` expected. -/
def digitChar (d : Nat) : Char := Char.ofNat (48 + d)

/-- Fuel-driven decimal printer; the fuel `n` itself always suffices.
Models the template-literal rendering of a nonnegative integral JS number. -/
def natCharsGo : Nat → Nat → List Char → List Char
  | 0, n, acc => digitChar n :: acc
  | fuel + 1, n, acc =>
    if n < 10 then digitChar n :: acc
    else natCharsGo fuel (n / 10) (digitChar (n % 10) :: acc)

/-- Decimal digits of a natural number, most significant first. -/
def natChars (n : Nat) : List Char := natCharsGo n n []

/-- Template-literal rendering of an integral JS number. -/
def intChars (i : Int) : List Char :=
  if i < 0 then '-' :: natChars i.natAbs else natChars i.toNat

/-- JS white space (the characters relevant to `trim` / `parseInt`). -/
def isJsWhitespace (c : Char) : Bool :=
  c = ' ' || c = '\t' || c = '\n' || c = '\r' ||
  c.val = 11 || c.val = 12 || c.val = 0xA0 || c.val = 0xFEFF ||
  c.val = 0x2028 || c.val = 0x2029

/-- `String.prototype.trim`. -/
def jsTrim (s : String) : String :=
  ⟨((s.data.dropWhile isJsWhitespace).reverse.dropWhile isJsWhitespace).reverse⟩

/-- Worker for `splitOnChar`; `acc` holds the current field reversed. -/
def splitOnCharAux (sep : Char) : List Char → List Char → List (List Char)
  | [], acc => [acc.reverse]
  | c :: rest, acc =>
    if c = sep then acc.reverse :: splitOnCharAux sep rest []
    else splitOnCharAux sep rest (c :: acc)

/-- `String.prototype.split` with a single-character separator:
`"".split(sep)` is `[""]`, separators at the ends produce empty fields. -/
def splitOnChar (sep : Char) (l : List Char) : List (List Char) :=
  splitOnCharAux sep l []

/-- Value of a digit list, most significant first. -/
def digitsVal (l : List Char) : Nat :=
  l.foldl (fun acc c => acc * 10 + (c.toNat - 48)) 0

/-- Longest leading run of decimal digits, or `none` when there is none
(the NaN outcome of `parseInt`). -/
def jsDigits (l : List Char) : Option Nat :=
  let ds := l.takeWhile Char.isDigit
  if ds.isEmpty then none else some (digitsVal ds)

/-- `parseInt(s, 10)`: skip white space, optional sign, longest digit run;
`none` models NaN. -/
def jsParseInt (s : String) : Option Int :=
  match s.data.dropWhile isJsWhitespace with
  | [] => none
  | c :: rest =>
    if c = '-' then (jsDigits rest).map (fun n => -(n : Int))
    else if c = '+' then (jsDigits rest).map (fun n => (n : Int))
    else (jsDigits (c :: rest)).map (fun n => (n : Int))

/-- `String.prototype.toLowerCase` (ASCII case mapping). -/
def jsToLower (s : String) : String := ⟨s.data.map Char.toLower⟩

/-- Does `hay` start with `needle`? -/
def listStartsWith : List Char → List Char → Bool
  | _, [] => true
  | [], _ :: _ => false
  | c :: cs, d :: ds => c = d && listStartsWith cs ds

/-- `String.prototype.includes` on character lists. -/
def listIncludes : List Char → List Char → Bool
  | [], needle => needle.isEmpty
  | c :: t, needle => listStartsWith (c :: t) needle || listIncludes t needle

/-- `s.includes(q)`. -/
def strIncludes (s q : String) : Bool := listIncludes s.data q.data

/-- `Array.prototype.join` with a one-character separator. -/
def joinSep (sep : Char) : List String → String
  | [] => ""
  | s :: rest => rest.foldl (fun acc t => acc ++ ⟨[sep]⟩ ++ t) s

/-- Inclusive integer interval `lo..hi` (empty when `hi < lo`), the index
set of a JS `for (let i = lo; i <= hi; i++)` loop. -/
def intRange (lo hi : Int) : List Int :=
  (List.range (hi - lo + 1).toNat).map (fun k : Nat => lo + (k : Int))

/-- `cols[i]` under a possibly negative JS index: `undefined` is `none`. -/
def colAt (cols : List String) (i : Int) : Option String :=
  if i < 0 then none else cols.get? i.toNat

/-- `Array.prototype.findIndex` (`-1` when absent). -/
def jsFindIndex (cols : List String) (c : String) : Int :=
  match cols.findIdx? (· = c) with
  | some i => (i : Int)
  | none => -1

/-- JS truthiness of a `string | null | undefined` value. -/
def optTruthy : Option String → Bool
  | none => false
  | some s => !s.isEmpty

/-- `Set.prototype.add` on the insertion-ordered element list. -/
def insertKey (l : List String) (k : String) : List String :=
  if l.contains k then l else l ++ [k]

/-- `Set.prototype.delete` on the insertion-ordered element list. -/
def eraseKey (l : List String) (k : String) : List String :=
  l.filter (fun x => x ≠ k)

/-! ### Cell addressing (`getCellKey` / `parseCellKey`) -/

/-- `CellPosition`; `rowIndex` is a JS number holding an integer. -/
structure CellPos where
  rowIndex : Int
  columnId : String
deriving DecidableEq, Repr

/-- `getCellKey(rowIndex, columnId)`, the template literal
making the canonical key string. -/
def getCellKey (rowIndex : Int) (columnId : String) : String :=
  ⟨intChars rowIndex ++ ':' :: columnId.data⟩

/-- `parseCellKey(cellKey)`: split on `:`, truthiness-check both parts,
`parseInt` the row part, fall back to the zero position. -/
def parseCellKey (cellKey : String) : CellPos :=
  let parts := splitOnChar ':' cellKey.data
  let rowIndexStr := (parts.get? 0).getD []
  match parts.get? 1 with
  | some cid =>
    if rowIndexStr ≠ [] ∧ cid ≠ [] then
      match jsParseInt ⟨rowIndexStr⟩ with
      | some n => ⟨n, ⟨cid⟩⟩
      | none => ⟨0, ""⟩
    else ⟨0, ""⟩
  | none => ⟨0, ""⟩

/-- The guard of `parseCellKey`: keys that reach the success branch. -/
def keyAccepted (cellKey : String) : Bool :=
  let parts := splitOnChar ':' cellKey.data
  match parts.get? 1 with
  | some cid =>
    !((parts.get? 0).getD []).isEmpty && !cid.isEmpty &&
      (jsParseInt ⟨(parts.get? 0).getD []⟩).isSome
  | none => false

/-! ### Navigation engine

Navigation context: `cols` is the ordered list of navigable column ids
(`getNavigableColumns`), `rowCount` the length of `table.getRowModel().rows`.
-/

/-- `NavigationDirection`. -/
inductive NavDirection where
  | up | down | left | right | home | end' | ctrlHome | ctrlEnd | pageUp | pageDown
deriving DecidableEq, Repr

/-- `getFirstNavigableColumnId`: `cols[0]?.id ?? null`. -/
def getFirstNavigableColumnId (cols : List String) : Option String :=
  cols.get? 0

/-- `getLastNavigableColumnId`: `cols[cols.length - 1]?.id ?? null`. -/
def getLastNavigableColumnId (cols : List String) : Option String :=
  cols.get? (cols.length - 1)

/-- `getNextNavigableColumnId(currentColumnId, direction)`; `dirRight`
selects the `'right'` branch. `findIndex` of `-1` yields `null`, and
`cols[-1]` is `undefined`. -/
def getNextNavigableColumnId (cols : List String) (currentColumnId : String)
    (dirRight : Bool) : Option String :=
  match cols.findIdx? (· = currentColumnId) with
  | none => none
  | some i =>
    if dirRight then cols.get? (i + 1)
    else if i = 0 then none else cols.get? (i - 1)

/-- `navigateCell(direction)` restricted to its effect on the focused
position: the switch computes `newRowIndex`/`newColumnId`, and `focusCell`
runs only under `newColumnId && (newRowIndex !== rowIndex || newColumnId
!== columnId)` (string truthiness, so an empty id blocks the move). -/
def navigateCell (cols : List String) (rowCount : Nat) (pos : CellPos)
    (direction : NavDirection) : CellPos :=
  let rowIndex := pos.rowIndex
  let columnId := pos.columnId
  let step : Int × Option String :=
    match direction with
    | .up => (max 0 (rowIndex - 1), some columnId)
    | .down => (min ((rowCount : Int) - 1) (rowIndex + 1), some columnId)
    | .left =>
      let prevCol := getNextNavigableColumnId cols columnId false
      if optTruthy prevCol then (rowIndex, prevCol)
      else if rowIndex > 0 then (rowIndex - 1, getLastNavigableColumnId cols)
      else (rowIndex, some columnId)
    | .right =>
      let nextCol := getNextNavigableColumnId cols columnId true
      if optTruthy nextCol then (rowIndex, nextCol)
      else if rowIndex < (rowCount : Int) - 1 then
        (rowIndex + 1, getFirstNavigableColumnId cols)
      else (rowIndex, some columnId)
    | .home => (rowIndex, getFirstNavigableColumnId cols)
    | .end' => (rowIndex, getLastNavigableColumnId cols)
    | .ctrlHome => (0, getFirstNavigableColumnId cols)
    | .ctrlEnd => ((rowCount : Int) - 1, getLastNavigableColumnId cols)
    | .pageUp => (max 0 (rowIndex - 10), some columnId)
    | .pageDown => (min ((rowCount : Int) - 1) (rowIndex + 10), some columnId)
  match step with
  | (newRowIndex, newColumnId) =>
    match newColumnId with
    | some cid =>
      if !cid.isEmpty ∧ (newRowIndex ≠ rowIndex ∨ cid ≠ columnId) then
        ⟨newRowIndex, cid⟩
      else pos
    | none => pos

/-- `getNavigationTarget(direction)`: the shift+arrow variant; left/right
do not wrap, and a falsy `newColumnId` returns `null`. -/
def getNavigationTarget (cols : List String) (rowCount : Nat) (pos : CellPos)
    (direction : NavDirection) : Option CellPos :=
  let rowIndex := pos.rowIndex
  let columnId := pos.columnId
  let step : Int × Option String :=
    match direction with
    | .up => (max 0 (rowIndex - 1), some columnId)
    | .down => (min ((rowCount : Int) - 1) (rowIndex + 1), some columnId)
    | .left => (rowIndex, getNextNavigableColumnId cols columnId false)
    | .right => (rowIndex, getNextNavigableColumnId cols columnId true)
    | .home => (rowIndex, getFirstNavigableColumnId cols)
    | .end' => (rowIndex, getLastNavigableColumnId cols)
    | .ctrlHome => (0, getFirstNavigableColumnId cols)
    | .ctrlEnd => ((rowCount : Int) - 1, getLastNavigableColumnId cols)
    | .pageUp => (max 0 (rowIndex - 10), some columnId)
    | .pageDown => (min ((rowCount : Int) - 1) (rowIndex + 10), some columnId)
  match step with
  | (newRowIndex, newColumnId) =>
    match newColumnId with
    | some cid => if !cid.isEmpty then some ⟨newRowIndex, cid⟩ else none
    | none => none

/-- `handleKeyDown`'s Tab branch: `navigateCell(event.shiftKey ? 'left' :
'right')`, the same function used for plain arrow keys. -/
def tabKeyTarget (cols : List String) (rowCount : Nat) (pos : CellPos)
    (shift : Bool) : CellPos :=
  navigateCell cols rowCount pos (if shift then .left else .right)

/-- `handleKeyDown`'s non-shift arrow branches: `navigationMap` maps the
key to a direction and `navigateCell` runs. -/
def arrowKeyTarget (cols : List String) (rowCount : Nat) (pos : CellPos)
    (key : String) : CellPos :=
  if key = "ArrowUp" then navigateCell cols rowCount pos .up
  else if key = "ArrowDown" then navigateCell cols rowCount pos .down
  else if key = "ArrowLeft" then navigateCell cols rowCount pos .left
  else if key = "ArrowRight" then navigateCell cols rowCount pos .right
  else pos

/-! ### Selection engine -/

/-- `SelectionState`; the `Set<string>` is its insertion-ordered element
list. -/
structure SelState where
  selectedCells : List String
  selectionRange : Option (CellPos × CellPos)
  isSelecting : Bool
deriving DecidableEq, Repr

/-- The cell-interaction state touched by mouse selection. -/
structure GridState where
  focusedCell : Option CellPos
  selectionState : SelState
  selectionAnchor : Option CellPos
deriving DecidableEq, Repr

/-- The engine state at construction: everything empty. -/
def initialGridState : GridState :=
  ⟨none, ⟨[], none, false⟩, none⟩

/-- The nested fill loops of `selectRange`: rows `minRow..maxRow`, column
indices `minCol..maxCol` over the navigable columns, skipping falsy ids. -/
def selectRangeCells (cols : List String) (start e : CellPos) : List String :=
  let startColIndex := jsFindIndex cols start.columnId
  let endColIndex := jsFindIndex cols e.columnId
  let minRow := min start.rowIndex e.rowIndex
  let maxRow := max start.rowIndex e.rowIndex
  let minCol := min startColIndex endColIndex
  let maxCol := max startColIndex endColIndex
  (intRange minRow maxRow).foldl (fun acc row =>
    (intRange minCol maxCol).foldl (fun acc2 col =>
      match colAt cols col with
      | some colId =>
        if !colId.isEmpty then insertKey acc2 (getCellKey row colId) else acc2
      | none => acc2) acc) []

/-- `selectRange(start, end, keepSelecting)`. -/
def selectRange (cols : List String) (st : SelState) (start e : CellPos)
    (keepSelecting : Bool) : SelState :=
  { selectedCells := selectRangeCells cols start e
    selectionRange := some (start, e)
    isSelecting := if keepSelecting then st.isSelecting else false }

/-- The state effect of `focusCell(rowIndex, columnId, opts)`: focus moves;
unless a drag is active or `keepAnchor` is set, selection collapses to the
focused cell and the anchor follows. -/
def focusCellState (st : GridState) (rowIndex : Int) (columnId : String)
    (keepAnchor : Bool) : GridState :=
  let st1 := { st with focusedCell := some ⟨rowIndex, columnId⟩ }
  if !st.selectionState.isSelecting && !keepAnchor then
    { st1 with
      selectionState :=
        ⟨[getCellKey rowIndex columnId], none, false⟩
      selectionAnchor := some ⟨rowIndex, columnId⟩ }
  else st1

/-- `onCellMouseDown` for a left click (`event.button === 0` assumed);
`ctrlOrMeta` is `event.ctrlKey || event.metaKey`. -/
def onCellMouseDown (cols : List String) (st : GridState) (rowIndex : Int)
    (columnId : String) (ctrlOrMeta shift : Bool) : GridState :=
  let cellKey := getCellKey rowIndex columnId
  if ctrlOrMeta then
    let newSelected :=
      if st.selectionState.selectedCells.contains cellKey then
        eraseKey st.selectionState.selectedCells cellKey
      else insertKey st.selectionState.selectedCells cellKey
    { st with
      selectionState :=
        { st.selectionState with selectedCells := newSelected, isSelecting := false }
      focusedCell := some ⟨rowIndex, columnId⟩ }
  else if shift && (st.selectionAnchor.isSome || st.focusedCell.isSome) then
    let anchor := st.selectionAnchor.getD (st.focusedCell.getD ⟨rowIndex, columnId⟩)
    let sel := selectRange cols st.selectionState anchor ⟨rowIndex, columnId⟩ false
    { st with
      selectionState := { sel with isSelecting := false }
      focusedCell := some ⟨rowIndex, columnId⟩ }
  else
    let st1 :=
      { st with
        selectionState := ⟨[cellKey], none, true⟩
        selectionAnchor := some ⟨rowIndex, columnId⟩ }
    focusCellState st1 rowIndex columnId false

/-- `onCellMouseEnter` while dragging: extend the range from the anchor. -/
def onCellMouseEnter (cols : List String) (st : GridState) (rowIndex : Int)
    (columnId : String) : GridState :=
  match st.selectionAnchor with
  | some anchor =>
    if st.selectionState.isSelecting then
      { st with
        selectionState :=
          selectRange cols st.selectionState anchor ⟨rowIndex, columnId⟩ true }
    else st
  | none => st

/-- `onCellMouseUp`: unconditionally stop dragging. -/
def onCellMouseUp (st : GridState) : GridState :=
  { st with selectionState := { st.selectionState with isSelecting := false } }

/-- States reachable through the mouse-selection entry points from the
freshly constructed engine. -/
inductive Reach (cols : List String) : GridState → Prop
  | init : Reach cols initialGridState
  | mouseDown (st : GridState) (r : Int) (c : String) (ctrl shift : Bool) :
      Reach cols st → Reach cols (onCellMouseDown cols st r c ctrl shift)
  | mouseEnter (st : GridState) (r : Int) (c : String) :
      Reach cols st → Reach cols (onCellMouseEnter cols st r c)
  | mouseUp (st : GridState) :
      Reach cols st → Reach cols (onCellMouseUp st)

/-- Spec-side membership in the rectangular fill of a range intersected
with the navigable columns: the key of some `(row, column)` with `row`
between the corner rows and the column's order index between the corner
column indices. -/
def rectFillMem (cols : List String) (rg : CellPos × CellPos) (k : String) : Bool :=
  let startColIndex := jsFindIndex cols rg.1.columnId
  let endColIndex := jsFindIndex cols rg.2.columnId
  (intRange (min rg.1.rowIndex rg.2.rowIndex) (max rg.1.rowIndex rg.2.rowIndex)).any
    (fun row =>
      (intRange (min startColIndex endColIndex) (max startColIndex endColIndex)).any
        (fun col =>
          match colAt cols col with
          | some colId => k = getCellKey row colId
          | none => false))

/-! ### Editing lifecycle -/

/-- The focus/editing slice of the engine state. -/
structure FocusEditState where
  focusedCell : Option CellPos
  editingCell : Option CellPos
deriving DecidableEq, Repr

/-- `startEditing(rowIndex, columnId)`: rejected when read-only, otherwise
sets only `editingCell`. -/
def startEditing (readOnly : Bool) (st : FocusEditState) (rowIndex : Int)
    (columnId : String) : FocusEditState :=
  if readOnly then st
  else { st with editingCell := some ⟨rowIndex, columnId⟩ }

/-! ### Search engine

`display r c` models `String(row.getValue(col.id) ?? '')`, the display
value of the cell at row `r`, column id `c`.
-/

/-- The search slice written by `performSearch`. -/
structure SearchResult where
  searchMatches : List CellPos
  searchMatchSet : List String
  matchIndex : Nat
deriving DecidableEq, Repr

/-- `performSearch(query)`: blank queries clear everything; otherwise one
row-major pass over every (row, navigable column) pair, appending a match
and its key (into the set) when the lowercased display value contains the
lowercased query. -/
def performSearch (cols : List String) (rowCount : Nat)
    (display : Nat → String → String) (query : String) : SearchResult :=
  if (jsTrim query).isEmpty then ⟨[], [], 0⟩
  else
    let lowerQuery := jsToLower query
    let res :=
      (List.range rowCount).foldl (fun acc r =>
        cols.foldl (fun acc2 c =>
          if strIncludes (jsToLower (display r c)) lowerQuery then
            (acc2.1 ++ [(⟨(r : Int), c⟩ : CellPos)],
             insertKey acc2.2 (getCellKey (r : Int) c))
          else acc2) acc) (([], []) : List CellPos × List String)
    ⟨res.1, res.2, 0⟩

/-- Spec-side brute force: the row-major list of every (row, navigable
column) pair whose display value contains the query case-insensitively. -/
def bruteForceMatches (cols : List String) (rowCount : Nat)
    (display : Nat → String → String) (query : String) : List CellPos :=
  (List.range rowCount).flatMap (fun r =>
    (cols.filter (fun c =>
      strIncludes (jsToLower (display r c)) (jsToLower query))).map
      (fun c => (⟨(r : Int), c⟩ : CellPos)))

/-! ### Clipboard

Cell values are opaque to the claims settled here, so the value type `V`,
the paste-side coercion `parseVal` (`parseCellValueForPaste`), the
copy-side formatter `fmt` (`formatCellValueForCopy`), the stored values
`value r c` (`rowData.getValue(colId)`), and the `null` written by
clear-operations (`vnull`) are parameters.
-/

/-- `UpdateCell` over the opaque value type. -/
structure UpdateCell (V : Type) where
  rowIndex : Int
  columnId : String
  value : V
deriving DecidableEq, Repr

/-- What a `performPaste` call did: the single batch handed to both
`handleDataUpdate` and `onPaste` (empty means neither ran), the cut set
afterwards, and whether any update was applied. -/
structure PasteResult (V : Type) where
  batch : List (UpdateCell V)
  cutCellsAfter : List String
  applied : Bool
deriving DecidableEq, Repr

/-- Outcome of `pasteFromClipboard`: silently ignored, paste dialog
surfaced, or applied immediately. -/
inductive PasteAction (V : Type) where
  | noAction : PasteAction V
  | dialog (rowsNeeded : Int) (clipboardText : String) : PasteAction V
  | applied (result : PasteResult V) : PasteAction V
deriving DecidableEq, Repr

/-- `text.split('\n').map(line => line.split('\t'))`. -/
def splitLines (text : String) : List (List String) :=
  (splitOnChar '\n' text.data).map
    (fun line => (splitOnChar '\t' line).map (fun cs => (⟨cs⟩ : String)))

/-- Inner loop of `performPaste` over one matrix line: `colIndex` walks
from `startColIndex`; an out-of-range column breaks the loop.
(`line[cellIdx] || ''` is the identity on the split fields.) -/
def pasteRowCellsAux {V : Type} (cols : List String)
    (parseVal : String → String → V) (rowIndex : Int) :
    List String → Int → List (UpdateCell V)
  | [], _ => []
  | cell :: rest, colIndex =>
    match colAt cols colIndex with
    | none => []
    | some colId =>
      ⟨rowIndex, colId, parseVal cell colId⟩ ::
        pasteRowCellsAux cols parseVal rowIndex rest (colIndex + 1)

/-- Outer loop of `performPaste` over the matrix lines: a row index at or
past the row count breaks the loop. (`if (!line) continue` never fires:
`split` produces no holes.) -/
def performPasteUpdatesAux {V : Type} (cols : List String)
    (parseVal : String → String → V) (rowCount : Nat) (startRow : Int)
    (startColIndex : Int) : List (List String) → Nat → List (UpdateCell V)
  | [], _ => []
  | line :: rest, lineIdx =>
    let rowIndex := startRow + (lineIdx : Int)
    if rowIndex ≥ (rowCount : Int) then []
    else
      pasteRowCellsAux cols parseVal rowIndex line startColIndex ++
        performPasteUpdatesAux cols parseVal rowCount startRow startColIndex
          rest (lineIdx + 1)

/-- The update list a `performPaste(text, startPos, startColIndex)` call
derives before looking at cut cells. -/
def performPasteUpdates {V : Type} (cols : List String)
    (parseVal : String → String → V) (rowCount : Nat) (text : String)
    (startPos : CellPos) (startColIndex : Int) : List (UpdateCell V) :=
  performPasteUpdatesAux cols parseVal rowCount startPos.rowIndex
    startColIndex (splitLines text) 0

/-- `performPaste`: with no derived update nothing at all happens; with at
least one, clear-operations for the cut cells are pushed into the same
array (a no-op when the cut set is empty, matching its `size > 0` guard),
the cut set empties, and the batch goes to `handleDataUpdate`/`onPaste`. -/
def performPaste {V : Type} (cols : List String)
    (parseVal : String → String → V) (vnull : V) (rowCount : Nat)
    (cutCells : List String) (text : String) (startPos : CellPos)
    (startColIndex : Int) : PasteResult V :=
  let updates := performPasteUpdates cols parseVal rowCount text startPos startColIndex
  if updates.isEmpty then ⟨[], cutCells, false⟩
  else
    ⟨updates ++ cutCells.map (fun k =>
        ⟨(parseCellKey k).rowIndex, (parseCellKey k).columnId, vnull⟩),
      [], true⟩

/-- `startPos` of a paste: `focusedCell || { rowIndex: 0, columnId:
cols[0]?.id || '' }`. -/
def pasteStartPos (cols : List String) (focusedCell : Option CellPos) : CellPos :=
  focusedCell.getD ⟨0, (cols.get? 0).getD ""⟩

/-- `rowsNeeded = startPos.rowIndex + lines.length - rows.length`. -/
def pasteRowsNeeded (cols : List String) (rowCount : Nat)
    (focusedCell : Option CellPos) (text : String) : Int :=
  (pasteStartPos cols focusedCell).rowIndex + ((splitLines text).length : Int) -
    (rowCount : Int)

/-- `pasteFromClipboard` after the clipboard text has been read:
read-only/disabled and blank text are ignored; an overflowing paste with
`onRowsAdd` available surfaces the dialog; otherwise `performPaste` runs
at once. -/
def pasteFromClipboard {V : Type} (cols : List String)
    (parseVal : String → String → V) (vnull : V)
    (readOnly enablePaste rowsAddSupported : Bool) (rowCount : Nat)
    (cutCells : List String) (focusedCell : Option CellPos)
    (text : String) : PasteAction V :=
  if readOnly || !enablePaste then .noAction
  else if (jsTrim text).isEmpty then .noAction
  else
    let startPos := pasteStartPos cols focusedCell
    let startColIndex := jsFindIndex cols startPos.columnId
    let rowsNeeded := pasteRowsNeeded cols rowCount focusedCell text
    if rowsNeeded > 0 && rowsAddSupported then .dialog rowsNeeded text
    else
      .applied (performPaste cols parseVal vnull rowCount cutCells text
        startPos startColIndex)

/-- `onPasteWithoutExpansion` (the dialog's "constrain" resolution):
`performPaste` on the stored clipboard text at the current focus. -/
def onPasteWithoutExpansion {V : Type} (cols : List String)
    (parseVal : String → String → V) (vnull : V) (rowCount : Nat)
    (cutCells : List String) (focusedCell : Option CellPos)
    (clipboardText : String) : PasteResult V :=
  let startPos := pasteStartPos cols focusedCell
  let startColIndex := jsFindIndex cols startPos.columnId
  performPaste cols parseVal vnull rowCount cutCells clipboardText startPos
    startColIndex

/-- `cutSelectedCells` restricted to its effect on the cut set: a copy of
the currently selected cells (no-op when read-only). -/
def cutSelectedCells (readOnly : Bool) (selected cutCells : List String) :
    List String :=
  if readOnly then cutCells else selected

/-- One step of the bounds scan in `copySelectedCells`: keys whose column
is not navigable are skipped; `none` models the untouched
Infinity and negative-Infinity sentinels. The quadruple is
`(minRow, maxRow, minCol, maxCol)`. -/
def copyBoundsStep (cols : List String) (acc : Option (Int × Int × Int × Int))
    (cellKey : String) : Option (Int × Int × Int × Int) :=
  let p := parseCellKey cellKey
  let colIndex := jsFindIndex cols p.columnId
  if colIndex ≥ 0 then
    match acc with
    | none => some (p.rowIndex, p.rowIndex, colIndex, colIndex)
    | some (mnR, mxR, mnC, mxC) =>
      some (min mnR p.rowIndex, max mxR p.rowIndex, min mnC colIndex,
        max mxC colIndex)
  else acc

/-- The selection bounds of `copySelectedCells`. -/
def copyBounds (cols : List String) (selected : List String) :
    Option (Int × Int × Int × Int) :=
  selected.foldl (copyBoundsStep cols) none

/-- The TSV lines `copySelectedCells` builds: rows without data
(`!rowData`) are skipped whole, falsy column ids are skipped per cell,
selected cells are formatted and unselected ones become `''`. -/
def copyLines {V : Type} (cols : List String) (rowCount : Nat)
    (selected : List String) (value : Int → String → V) (fmt : V → String) :
    List String :=
  match copyBounds cols selected with
  | none => []
  | some (minRow, maxRow, minCol, maxCol) =>
    (intRange minRow maxRow).filterMap (fun row =>
      if 0 ≤ row ∧ row < (rowCount : Int) then
        some (joinSep '\t' ((intRange minCol maxCol).filterMap (fun col =>
          match colAt cols col with
          | some colId =>
            if colId.isEmpty then none
            else
              some (if selected.contains (getCellKey row colId) then
                fmt (value row colId) else "")
          | none => none)))
      else none)

/-- `copySelectedCells` up to the clipboard write: `none` when the
selection is empty (early return), otherwise the TSV text. -/
def copySelectedCells {V : Type} (cols : List String) (rowCount : Nat)
    (selected : List String) (value : Int → String → V) (fmt : V → String) :
    Option String :=
  if selected.isEmpty then none
  else some (joinSep '\n' (copyLines cols rowCount selected value fmt))

/-- One spec-side bounding-box extension step. -/
def specBoundsStep (cols : List String) (acc : Int × Int × Int × Int)
    (q : CellPos) : Int × Int × Int × Int :=
  (min acc.1 q.rowIndex, max acc.2.1 q.rowIndex,
    min acc.2.2.1 (jsFindIndex cols q.columnId),
    max acc.2.2.2 (jsFindIndex cols q.columnId))

/-- Spec-side bounding box of the selected cells: min/max of the parsed
row indices and of the column order indices, `none` on an empty
selection. -/
def specBounds (cols : List String) (selected : List String) :
    Option (Int × Int × Int × Int) :=
  match selected.map parseCellKey with
  | [] => none
  | p :: rest =>
    some (rest.foldl (specBoundsStep cols)
      (p.rowIndex, p.rowIndex, jsFindIndex cols p.columnId,
        jsFindIndex cols p.columnId))

/-- Spec-side dense TSV rectangle spanning the bounding box: every cell
inside the box appears, selected ones through the copy formatter and
unselected ones as the empty string. -/
def specCopyTSV {V : Type} (cols : List String) (selected : List String)
    (value : Int → String → V) (fmt : V → String) : Option String :=
  match specBounds cols selected with
  | none => none
  | some (minRow, maxRow, minCol, maxCol) =>
    some (joinSep '\n' ((intRange minRow maxRow).map (fun row =>
      joinSep '\t' ((intRange minCol maxCol).map (fun col =>
        let colId := (colAt cols col).getD ""
        if selected.contains (getCellKey row colId) then fmt (value row colId)
        else "")))))

/-! ### Lemmas: decimal printing and key parsing -/

/-- The ten decimal digit characters. -/
def decimalDigits : List Char :=
  ['0', '1', '2', '3', '4', '5', '6', '7', '8', '9']

theorem digitChar_mem_decimalDigits {d : Nat} (h : d < 10) :
    digitChar d ∈ decimalDigits := by
  interval_cases d <;> decide

theorem natCharsGo_append (fuel : Nat) :
    ∀ n acc, natCharsGo fuel n acc = natCharsGo fuel n [] ++ acc := by
  induction fuel with
  | zero => intro n acc; simp [natCharsGo]
  | succ fuel ih =>
    intro n acc
    by_cases h : n < 10
    · simp [natCharsGo, h]
    · simp only [natCharsGo, if_neg h]
      rw [ih (n / 10) (digitChar (n % 10) :: acc),
        ih (n / 10) [digitChar (n % 10)]]
      simp

theorem natCharsGo_ne_nil (fuel : Nat) : ∀ n acc, natCharsGo fuel n acc ≠ [] := by
  induction fuel with
  | zero => intro n acc; simp [natCharsGo]
  | succ fuel ih =>
    intro n acc
    by_cases h : n < 10
    · simp [natCharsGo, h]
    · simp only [natCharsGo, if_neg h]
      exact ih (n / 10) _

theorem natChars_ne_nil (n : Nat) : natChars n ≠ [] :=
  natCharsGo_ne_nil n n []

theorem natCharsGo_mem_digits (fuel : Nat) :
    ∀ n acc c, n ≤ fuel → c ∈ natCharsGo fuel n acc →
      c ∈ acc ∨ c ∈ decimalDigits := by
  induction fuel with
  | zero =>
    intro n acc c hle hmem
    interval_cases n
    simp only [natCharsGo, List.mem_cons] at hmem
    rcases hmem with rfl | h
    · exact Or.inr (digitChar_mem_decimalDigits (by norm_num))
    · exact Or.inl h
  | succ fuel ih =>
    intro n acc c hle hmem
    by_cases h : n < 10
    · simp only [natCharsGo, if_pos h, List.mem_cons] at hmem
      rcases hmem with rfl | hm
      · exact Or.inr (digitChar_mem_decimalDigits h)
      · exact Or.inl hm
    · simp only [natCharsGo, if_neg h] at hmem
      have hdiv : n / 10 ≤ fuel := by
        have : n / 10 < n := Nat.div_lt_self (by omega) (by norm_num)
        omega
      rcases ih (n / 10) _ c hdiv hmem with hacc | hd
      · rcases List.mem_cons.mp hacc with rfl | hacc'
        · exact Or.inr (digitChar_mem_decimalDigits (Nat.mod_lt n (by norm_num)))
        · exact Or.inl hacc'
      · exact Or.inr hd

theorem natChars_mem_digits {n : Nat} {c : Char} (h : c ∈ natChars n) :
    c ∈ decimalDigits := by
  rcases natCharsGo_mem_digits n n [] c (Nat.le_refl n) h with habs | hd
  · simp at habs
  · exact hd

theorem decimalDigit_isDigit {c : Char} (h : c ∈ decimalDigits) :
    c.isDigit = true := by
  fin_cases h <;> decide

theorem decimalDigit_not_ws {c : Char} (h : c ∈ decimalDigits) :
    isJsWhitespace c = false := by
  fin_cases h <;> decide

theorem decimalDigit_ne_colon {c : Char} (h : c ∈ decimalDigits) : c ≠ ':' := by
  fin_cases h <;> decide

theorem decimalDigit_ne_minus {c : Char} (h : c ∈ decimalDigits) : c ≠ '-' := by
  fin_cases h <;> decide

theorem decimalDigit_ne_plus {c : Char} (h : c ∈ decimalDigits) : c ≠ '+' := by
  fin_cases h <;> decide

theorem digitsVal_append_single (l : List Char) (c : Char) :
    digitsVal (l ++ [c]) = digitsVal l * 10 + (c.toNat - 48) := by
  simp [digitsVal, List.foldl_append]

theorem digitChar_toNat {d : Nat} (h : d < 10) : (digitChar d).toNat = 48 + d := by
  interval_cases d <;> decide

theorem digitsVal_natCharsGo (fuel : Nat) :
    ∀ n, n ≤ fuel → digitsVal (natCharsGo fuel n []) = n := by
  induction fuel with
  | zero =>
    intro n hle
    interval_cases n
    decide
  | succ fuel ih =>
    intro n hle
    by_cases h : n < 10
    · simp only [natCharsGo, if_pos h]
      show digitsVal [digitChar n] = n
      simp [digitsVal, digitChar_toNat h]
    · simp only [natCharsGo, if_neg h]
      rw [natCharsGo_append fuel (n / 10) [digitChar (n % 10)]]
      rw [digitsVal_append_single]
      have hdiv : n / 10 ≤ fuel := by
        have : n / 10 < n := Nat.div_lt_self (by omega) (by norm_num)
        omega
      rw [ih (n / 10) hdiv, digitChar_toNat (Nat.mod_lt n (by norm_num))]
      omega

theorem digitsVal_natChars (n : Nat) : digitsVal (natChars n) = n :=
  digitsVal_natCharsGo n n (Nat.le_refl n)

theorem takeWhile_eq_self_of_all {p : Char → Bool} :
    ∀ l : List Char, (∀ c ∈ l, p c = true) → l.takeWhile p = l := by
  intro l
  induction l with
  | nil => intro _; rfl
  | cons c t ih =>
    intro h
    have hc : p c = true := h c (List.mem_cons_self c t)
    simp [List.takeWhile, hc, ih (fun x hx => h x (List.mem_cons_of_mem c hx))]

theorem jsParseInt_natChars (n : Nat) : jsParseInt ⟨natChars n⟩ = some (n : Int) := by
  obtain ⟨hd, tl, heq⟩ := List.exists_cons_of_ne_nil (natChars_ne_nil n)
  have hhd : hd ∈ decimalDigits := natChars_mem_digits (heq ▸ List.mem_cons_self hd tl)
  have hdrop : List.dropWhile isJsWhitespace (natChars n) = hd :: tl := by
    rw [heq]
    simp [List.dropWhile, decimalDigit_not_ws hhd]
  have htake : List.takeWhile Char.isDigit (natChars n) = natChars n :=
    takeWhile_eq_self_of_all _ (fun c hc => decimalDigit_isDigit (natChars_mem_digits hc))
  unfold jsParseInt
  rw [show (⟨natChars n⟩ : String).data = natChars n from rfl, hdrop]
  dsimp only
  rw [if_neg (decimalDigit_ne_minus hhd), if_neg (decimalDigit_ne_plus hhd)]
  unfold jsDigits
  rw [← heq, htake]
  have hne : ¬((natChars n).isEmpty = true) := by
    simpa [List.isEmpty_iff] using natChars_ne_nil n
  rw [if_neg hne]
  simp [digitsVal_natChars]

theorem splitOnCharAux_no_sep {sep : Char} :
    ∀ (m acc : List Char), sep ∉ m → splitOnCharAux sep m acc = [acc.reverse ++ m] := by
  intro m
  induction m with
  | nil => intro acc _; simp [splitOnCharAux]
  | cons c t ih =>
    intro acc h
    have hc : c ≠ sep := fun hc => h (hc ▸ List.mem_cons_self c t)
    have ht : sep ∉ t := fun ht => h (List.mem_cons_of_mem c ht)
    rw [splitOnCharAux, if_neg hc, ih (c :: acc) ht]
    simp

theorem splitOnCharAux_found {sep : Char} :
    ∀ (l m acc : List Char), sep ∉ l →
      splitOnCharAux sep (l ++ sep :: m) acc =
        (acc.reverse ++ l) :: splitOnCharAux sep m [] := by
  intro l
  induction l with
  | nil =>
    intro m acc _
    simp [splitOnCharAux]
  | cons c t ih =>
    intro m acc h
    have hc : c ≠ sep := fun hc => h (hc ▸ List.mem_cons_self c t)
    have ht : sep ∉ t := fun ht => h (List.mem_cons_of_mem c ht)
    rw [List.cons_append, splitOnCharAux, if_neg hc, ih m (c :: acc) ht]
    simp

theorem string_ne_empty_iff_data {s : String} : s ≠ "" ↔ s.data ≠ [] := by
  cases s with
  | mk d =>
    constructor
    · intro h hd
      subst hd
      exact h rfl
    · intro h he
      apply h
      have := congrArg String.data he
      simpa using this

/-! ### Claim theorems -/

/-- **C5 (counterexample).** The round trip fails at the empty column id:
`getCellKey 3 ""` is `"3:"`, whose second split part is falsy, so
`parseCellKey` returns the zero position, not `{rowIndex: 3, columnId: ""}`. -/
theorem cellKey_roundtrip_counterexample :
    parseCellKey (getCellKey 3 "") = ⟨0, ""⟩ ∧
      parseCellKey (getCellKey 3 "") ≠ ⟨3, ""⟩ := by
  constructor <;> decide

/-- **C5 (amended).** For every non-negative integer row index and every
**non-empty** column id containing no `':'`,
`parseCellKey (getCellKey r c) = {rowIndex: r, columnId: c}`. -/
theorem cellKey_roundtrip_amended (r : Nat) (c : String) (hne : c ≠ "")
    (hcolon : ':' ∉ c.data) : parseCellKey (getCellKey (r : Int) c) = ⟨(r : Int), c⟩ := by
  have hkey : (getCellKey (r : Int) c).data = natChars r ++ ':' :: c.data := by
    unfold getCellKey intChars
    rw [if_neg (by omega)]
    simp
  have hnocolon : ':' ∉ natChars r := fun h =>
    decimalDigit_ne_colon (natChars_mem_digits h) rfl
  have hsplit : splitOnChar ':' ((getCellKey (r : Int) c).data) =
      [natChars r, c.data] := by
    rw [hkey]
    unfold splitOnChar
    rw [splitOnCharAux_found (natChars r) c.data [] hnocolon]
    rw [splitOnCharAux_no_sep c.data [] hcolon]
    simp
  unfold parseCellKey
  simp only [hsplit]
  rw [show ([natChars r, c.data].get? 1) = some c.data from rfl]
  simp only [List.get?, Option.getD_some]
  rw [if_pos ⟨natChars_ne_nil r, string_ne_empty_iff_data.mp hne⟩]
  rw [jsParseInt_natChars r]

/-- **C5 (witness).** A concrete round trip through the amended theorem. -/
theorem cellKey_roundtrip_amended_witness :
    parseCellKey (getCellKey (7 : Int) "name") = ⟨(7 : Int), "name"⟩ := by
  have h := cellKey_roundtrip_amended 7 "name" (by decide) (by decide)
  simpa using h

/-- **C9 (counterexample).** `parseCellKey` does not map every malformed
key to the zero position: the key `"12abc:col"` has a non-numeric
row-index part (it is not `getCellKey r c` for any position), yet
`parseInt` accepts its digit prefix and the result is
`{rowIndex: 12, columnId: "col"}`, not `{rowIndex: 0, columnId: ""}`. -/
theorem parseCellKey_malformed_counterexample :
    parseCellKey "12abc:col" = ⟨12, "col"⟩ ∧
      parseCellKey "12abc:col" ≠ ⟨0, ""⟩ := by
  constructor <;> decide

/-- **C9 (amended).** `parseCellKey` is total (every string yields a
position in the model, with no thrown failure path), and it yields the
zero position exactly when its guard rejects the key: no second
`':'`-part, an empty row or column part, or a row part whose `parseInt`
is NaN (no leading digits after optional white space and sign). A
malformed row part that does begin with digits, such as `"12abc"`, is
accepted with the trailing characters ignored. -/
theorem parseCellKey_total_amended (key : String) :
    parseCellKey key = ⟨0, ""⟩ ↔ keyAccepted key = false := by
  unfold parseCellKey keyAccepted
  simp only [List.get?_eq_getElem?]
  cases h1 : (splitOnChar ':' key.data)[1]? with
  | none => simp [h1]
  | some cid =>
    simp only [h1]
    by_cases hrow : ((splitOnChar ':' key.data))[0]?.getD [] = []
    · simp [hrow]
    · by_cases hcid : cid = []
      · simp [hcid, hrow]
      · rw [if_pos ⟨hrow, hcid⟩]
        cases hp : jsParseInt ⟨((splitOnChar ':' key.data))[0]?.getD []⟩ with
        | none =>
          simp [hp, List.isEmpty_iff, hrow, hcid]
        | some n =>
          simp only [hp]
          constructor
          · intro he
            exfalso
            have hc : cid = [] := by
              have := congrArg CellPos.columnId he
              simpa using congrArg String.data this
            exact hcid hc
          · intro hacc
            exfalso
            simp [List.isEmpty_iff, hrow, hcid] at hacc

/-- **C8 (counterexample).** `startEditing` does not touch `FocusedCell`:
starting to edit `(0, "a")` with nothing focused leaves `FocusedCell` at
`null`, so the claimed postcondition `EditingCell = FocusedCell = pos`
fails, as does the invariant `EditingCell` non-null implies `FocusedCell`
equals it. -/
theorem startEditing_counterexample :
    (startEditing false ⟨none, none⟩ 0 "a").editingCell = some ⟨0, "a"⟩ ∧
      (startEditing false ⟨none, none⟩ 0 "a").focusedCell ≠ some ⟨0, "a"⟩ := by
  constructor <;> decide

/-- **C8 (amended).** When the engine is read-only, `startEditing` is a
no-op leaving all state unchanged; otherwise it sets `EditingCell` to the
position and leaves `FocusedCell` unchanged, so the invariant
`EditingCell` non-null implies `FocusedCell` equals it holds after the
call exactly when `FocusedCell` was already the edited position (as at
the keyboard call sites, which pass the focused cell). -/
theorem startEditing_amended (st : FocusEditState) (r : Int) (c : String) :
    startEditing true st r c = st ∧
      (startEditing false st r c).editingCell = some ⟨r, c⟩ ∧
      (startEditing false st r c).focusedCell = st.focusedCell ∧
      ((startEditing false st r c).focusedCell = some ⟨r, c⟩ ↔
        st.focusedCell = some ⟨r, c⟩) := by
  refine ⟨rfl, rfl, rfl, Iff.rfl⟩

/-- **C1 (counterexample).** Plain arrow navigation wraps across rows:
with columns `[a, b]` and two rows, pressing left at the first navigable
column of row 1 moves to the last column of row 0 (and right at the last
column of row 0 moves to the first column of row 1), instead of returning
the position unchanged. -/
theorem navigateCell_wrap_counterexample :
    navigateCell ["a", "b"] 2 ⟨1, "a"⟩ .left = ⟨0, "b"⟩ ∧
      navigateCell ["a", "b"] 2 ⟨1, "a"⟩ .left ≠ ⟨1, "a"⟩ ∧
      navigateCell ["a", "b"] 2 ⟨0, "b"⟩ .right = ⟨1, "a"⟩ := by
  refine ⟨by decide, by decide, by decide⟩

/-- **C1 (amended).** Arrow-key left/right navigation itself wraps across
row boundaries: at the first navigable column, left moves to the last
column of the previous row whenever the row index is positive (staying
put only at row 0), and symmetrically for right at the last column; Tab
and Shift+Tab dispatch to the very same `navigateCell` left/right, so
arrow keys and Tab behave identically.  The only non-wrapping variant is
`getNavigationTarget`, used for shift+arrow range extension, which
returns `null` at a column edge. -/
theorem navigateCell_wrap_amended (cols : List String) (rowCount : Nat)
    (pos : CellPos) (firstId lastId : String) :
    (cols.findIdx? (· = pos.columnId) = some 0 →
      getLastNavigableColumnId cols = some lastId → lastId.isEmpty = false →
        (0 < pos.rowIndex →
          navigateCell cols rowCount pos .left = ⟨pos.rowIndex - 1, lastId⟩) ∧
        (pos.rowIndex ≤ 0 → navigateCell cols rowCount pos .left = pos) ∧
        getNavigationTarget cols rowCount pos .left = none) ∧
    (cols.findIdx? (· = pos.columnId) = some (cols.length - 1) →
      getFirstNavigableColumnId cols = some firstId → firstId.isEmpty = false →
        (pos.rowIndex < (rowCount : Int) - 1 →
          navigateCell cols rowCount pos .right = ⟨pos.rowIndex + 1, firstId⟩) ∧
        ((rowCount : Int) - 1 ≤ pos.rowIndex →
          navigateCell cols rowCount pos .right = pos) ∧
        getNavigationTarget cols rowCount pos .right = none) ∧
    (∀ q : CellPos,
      tabKeyTarget cols rowCount q true = navigateCell cols rowCount q .left ∧
      tabKeyTarget cols rowCount q false = navigateCell cols rowCount q .right ∧
      arrowKeyTarget cols rowCount q "ArrowLeft" = navigateCell cols rowCount q .left ∧
      arrowKeyTarget cols rowCount q "ArrowRight" = navigateCell cols rowCount q .right) := by
  refine ⟨?_, ?_, ?_⟩
  · intro hfirst hlast hlastne
    have hnext : getNextNavigableColumnId cols pos.columnId false = none := by
      unfold getNextNavigableColumnId
      rw [hfirst]
      simp
    refine ⟨?_, ?_, ?_⟩
    · intro hrow
      have hax : pos.rowIndex - 1 ≠ pos.rowIndex := by omega
      unfold navigateCell
      dsimp only
      rw [hnext, hlast]
      simp [optTruthy, hlastne, hrow, hax]
    · intro hrow
      have hng : ¬(pos.rowIndex > 0) := by omega
      unfold navigateCell
      dsimp only
      rw [hnext]
      simp [optTruthy, hng]
    · unfold getNavigationTarget
      dsimp only
      rw [hnext]
  · intro hlastidx hfirstcol hfirstne
    have hnext : getNextNavigableColumnId cols pos.columnId true = none := by
      unfold getNextNavigableColumnId
      rw [hlastidx]
      dsimp only
      rw [List.get?_eq_getElem?, List.getElem?_eq_none]
      · simp
      · omega
    refine ⟨?_, ?_, ?_⟩
    · intro hrow
      have hax : pos.rowIndex + 1 ≠ pos.rowIndex := by omega
      unfold navigateCell
      dsimp only
      rw [hnext, hfirstcol]
      simp [optTruthy, hfirstne, hrow, hax]
    · intro hrow
      have hng : ¬(pos.rowIndex < (rowCount : Int) - 1) := by omega
      unfold navigateCell
      dsimp only
      rw [hnext]
      simp [optTruthy, hng]
    · unfold getNavigationTarget
      dsimp only
      rw [hnext]
  · intro q
    refine ⟨rfl, rfl, by simp [arrowKeyTarget], by simp [arrowKeyTarget]⟩

/-- **C1 (witness).** The amended theorem at columns `[a, b]`, two rows,
focus at `(1, a)`: left wraps to `(0, b)` while shift+arrow's
`getNavigationTarget` stays put. -/
theorem navigateCell_wrap_amended_witness :
    navigateCell ["a", "b"] 2 ⟨1, "a"⟩ .left = ⟨0, "b"⟩ ∧
      getNavigationTarget ["a", "b"] 2 ⟨1, "a"⟩ .left = none := by
  have h :=
    (navigateCell_wrap_amended ["a", "b"] 2 ⟨1, "a"⟩ "a" "b").1
      (by decide) (by decide) (by decide)
  exact ⟨h.1 (by decide), h.2.2⟩

/-! ### Lemmas: paste loops -/

theorem pasteRowCellsAux_nil_of_colAt_none {V : Type} (cols : List String)
    (parseVal : String → String → V) (rowIndex : Int) (line : List String)
    (colIndex : Int) (h : colAt cols colIndex = none) :
    pasteRowCellsAux cols parseVal rowIndex line colIndex = [] := by
  cases line with
  | nil => rfl
  | cons cell rest =>
    unfold pasteRowCellsAux
    rw [h]

theorem pasteRowCellsAux_rowIndex {V : Type} (cols : List String)
    (parseVal : String → String → V) (rowIndex : Int) :
    ∀ (line : List String) (colIndex : Int) (u : UpdateCell V),
      u ∈ pasteRowCellsAux cols parseVal rowIndex line colIndex →
        u.rowIndex = rowIndex := by
  intro line
  induction line with
  | nil => intro colIndex u h; simp [pasteRowCellsAux] at h
  | cons cell rest ih =>
    intro colIndex u h
    unfold pasteRowCellsAux at h
    cases hc : colAt cols colIndex with
    | none => rw [hc] at h; simp at h
    | some colId =>
      rw [hc] at h
      rcases List.mem_cons.mp h with rfl | hmem
      · rfl
      · exact ih (colIndex + 1) u hmem

theorem performPasteUpdatesAux_nil_of_row_ge {V : Type} (cols : List String)
    (parseVal : String → String → V) (rowCount : Nat) (startRow startColIndex : Int)
    (lines : List (List String)) (lineIdx : Nat)
    (h : (rowCount : Int) ≤ startRow + (lineIdx : Int)) :
    performPasteUpdatesAux cols parseVal rowCount startRow startColIndex
      lines lineIdx = [] := by
  cases lines with
  | nil => rfl
  | cons line rest =>
    unfold performPasteUpdatesAux
    rw [if_pos (by omega)]

theorem performPasteUpdatesAux_nil_of_colAt_none {V : Type} (cols : List String)
    (parseVal : String → String → V) (rowCount : Nat) (startRow startColIndex : Int)
    (h : colAt cols startColIndex = none) :
    ∀ (lines : List (List String)) (lineIdx : Nat),
      performPasteUpdatesAux cols parseVal rowCount startRow startColIndex
        lines lineIdx = [] := by
  intro lines
  induction lines with
  | nil => intro lineIdx; rfl
  | cons line rest ih =>
    intro lineIdx
    unfold performPasteUpdatesAux
    by_cases hge : startRow + (lineIdx : Int) ≥ (rowCount : Int)
    · rw [if_pos hge]
    · rw [if_neg hge, pasteRowCellsAux_nil_of_colAt_none cols parseVal _ line _ h,
        ih (lineIdx + 1)]
      rfl

theorem performPasteUpdatesAux_row_lt {V : Type} (cols : List String)
    (parseVal : String → String → V) (rowCount : Nat) (startRow startColIndex : Int) :
    ∀ (lines : List (List String)) (lineIdx : Nat) (u : UpdateCell V),
      u ∈ performPasteUpdatesAux cols parseVal rowCount startRow startColIndex
        lines lineIdx → u.rowIndex < (rowCount : Int) := by
  intro lines
  induction lines with
  | nil => intro lineIdx u h; simp [performPasteUpdatesAux] at h
  | cons line rest ih =>
    intro lineIdx u h
    unfold performPasteUpdatesAux at h
    by_cases hge : startRow + (lineIdx : Int) ≥ (rowCount : Int)
    · rw [if_pos hge] at h
      simp at h
    · rw [if_neg hge] at h
      rcases List.mem_append.mp h with hin | htail
      · have := pasteRowCellsAux_rowIndex cols parseVal _ line startColIndex u hin
        omega
      · exact ih (lineIdx + 1) u htail

/-- **C10 (confirmed).** When the paste derives zero in-bounds cell
updates — in particular when every matrix row is at or past the existing
row count (the first target row already is), or the starting column index
is outside the navigable columns (the inner loop breaks at once) —
`performPaste` changes nothing: the batch is empty (neither
`handleDataUpdate` nor `onPaste` runs) and the cut-cell set is left
unchanged rather than cleared. -/
theorem performPaste_zero_updates_noop {V : Type} (cols : List String)
    (parseVal : String → String → V) (vnull : V) (rowCount : Nat)
    (cutCells : List String) (text : String) (startPos : CellPos)
    (startColIndex : Int) :
    (((rowCount : Int) ≤ startPos.rowIndex ∨ colAt cols startColIndex = none) →
      performPasteUpdates cols parseVal rowCount text startPos startColIndex = []) ∧
    (performPasteUpdates cols parseVal rowCount text startPos startColIndex = [] →
      performPaste cols parseVal vnull rowCount cutCells text startPos
        startColIndex = ⟨[], cutCells, false⟩) := by
  constructor
  · intro h
    rcases h with hge | hcol
    · exact performPasteUpdatesAux_nil_of_row_ge cols parseVal rowCount
        startPos.rowIndex startColIndex (splitLines text) 0 (by omega)
    · exact performPasteUpdatesAux_nil_of_colAt_none cols parseVal rowCount
        startPos.rowIndex startColIndex hcol (splitLines text) 0
  · intro h
    unfold performPaste
    rw [h]
    rfl

/-- **C10 (witness).** Pasting with the focus already past the last row
(row 5 of a 1-row grid) applies nothing and keeps the cut set. -/
theorem performPaste_zero_updates_noop_witness :
    performPaste ["a"] (fun s _ => s) "" 1 ["9:z"] "x" ⟨5, "a"⟩ 0 =
      ⟨[], ["9:z"], false⟩ := by
  have h := performPaste_zero_updates_noop ["a"] (fun s _ => s) "" 1 ["9:z"]
    "x" ⟨5, "a"⟩ 0
  exact h.2 (h.1 (Or.inl (by decide)))

/-- **C6 (confirmed).** A paste that applies at least one cell after a
non-empty cut emits a single update batch holding both every pasted
update and one clear-operation (the modelled `null`) for every previously
cut cell, and afterwards the cut set is empty. -/
theorem performPaste_cut_merge {V : Type} (cols : List String)
    (parseVal : String → String → V) (vnull : V) (rowCount : Nat)
    (cutCells : List String) (text : String) (startPos : CellPos)
    (startColIndex : Int) (hcut : cutCells ≠ [])
    (hupd : performPasteUpdates cols parseVal rowCount text startPos
      startColIndex ≠ []) :
    performPaste cols parseVal vnull rowCount cutCells text startPos
        startColIndex =
      ⟨performPasteUpdates cols parseVal rowCount text startPos startColIndex ++
        cutCells.map (fun k =>
          ⟨(parseCellKey k).rowIndex, (parseCellKey k).columnId, vnull⟩),
        [], true⟩ ∧
    (∀ u ∈ performPasteUpdates cols parseVal rowCount text startPos startColIndex,
      u ∈ (performPaste cols parseVal vnull rowCount cutCells text startPos
        startColIndex).batch) ∧
    (∀ k ∈ cutCells,
      (⟨(parseCellKey k).rowIndex, (parseCellKey k).columnId, vnull⟩ : UpdateCell V) ∈
        (performPaste cols parseVal vnull rowCount cutCells text startPos
          startColIndex).batch) ∧
    (performPaste cols parseVal vnull rowCount cutCells text startPos
      startColIndex).cutCellsAfter = [] ∧
    (performPaste cols parseVal vnull rowCount cutCells text startPos
      startColIndex).applied = true := by
  have hne : (performPasteUpdates cols parseVal rowCount text startPos
      startColIndex).isEmpty = false := by
    simpa [List.isEmpty_iff] using hupd
  have hmain : performPaste cols parseVal vnull rowCount cutCells text startPos
      startColIndex =
      ⟨performPasteUpdates cols parseVal rowCount text startPos startColIndex ++
        cutCells.map (fun k =>
          ⟨(parseCellKey k).rowIndex, (parseCellKey k).columnId, vnull⟩),
        [], true⟩ := by
    unfold performPaste
    dsimp only
    rw [hne]
    rfl
  refine ⟨hmain, ?_, ?_, ?_, ?_⟩
  · intro u hu
    rw [hmain]
    exact List.mem_append_left _ hu
  · intro k hk
    rw [hmain]
    exact List.mem_append_right _ (List.mem_map_of_mem _ hk)
  · rw [hmain]
  · rw [hmain]

/-- **C6 (witness).** Cutting `(0, "a")` and pasting `"x"` at `(1, "a")`
yields one batch with the pasted value and the clear of `(0, "a")`. -/
theorem performPaste_cut_merge_witness :
    performPaste ["a"] (fun s _ => s) "NULL" 2
        (cutSelectedCells false ["0:a"] []) "x" ⟨1, "a"⟩ 0 =
      ⟨performPasteUpdates ["a"] (fun s _ => s) 2 "x" ⟨1, "a"⟩ 0 ++
        (cutSelectedCells false ["0:a"] []).map (fun k =>
          ⟨(parseCellKey k).rowIndex, (parseCellKey k).columnId, "NULL"⟩),
        [], true⟩ :=
  (performPaste_cut_merge ["a"] (fun s _ => s) "NULL" 2
    (cutSelectedCells false ["0:a"] []) "x" ⟨1, "a"⟩ 0
    (by decide) (by decide)).1

/-- **C2 (counterexample).** The claim fails for blank clipboard text:
pasting `" "` at `(0, "a")` in a 1-row grid has `rowsNeeded = 0 ≤ 0`, yet
`pasteFromClipboard` returns without applying anything (the `!text.trim()`
guard), while actually applying the paste would have produced one update. -/
theorem pasteFromClipboard_blank_counterexample :
    pasteFromClipboard (V := String) ["a"] (fun s _ => s) "" false true true 1 []
        (some ⟨0, "a"⟩) " " = .noAction ∧
      pasteRowsNeeded ["a"] 1 (some ⟨0, "a"⟩) " " ≤ 0 ∧
      (performPaste ["a"] (fun s _ => s) "" 1 [] " "
        (pasteStartPos ["a"] (some ⟨0, "a"⟩))
        (jsFindIndex ["a"] (pasteStartPos ["a"] (some ⟨0, "a"⟩)).columnId)).applied =
        true := by
  refine ⟨by decide, by decide, by decide⟩

/-- **C2 (amended).** For **non-blank** clipboard text (a blank text is
ignored entirely by the `!text.trim()` guard): paste computes
`rowsNeeded = targetRow + matrixRows - rowCount`; if `rowsNeeded > 0` and
row growth is supported it surfaces the dialog carrying exactly that
`rowsNeeded` and the clipboard text, performing no data update (the
`dialog` outcome carries none); if `rowsNeeded ≤ 0` it applies the paste
immediately with no dialog; resolving the dialog with "constrain" runs
`performPaste` on the stored text at the focus, whose derived matrix
updates all have row index below the existing row count — the rest of the
matrix is silently dropped. -/
theorem pasteFromClipboard_amended {V : Type} (cols : List String)
    (parseVal : String → String → V) (vnull : V) (rowsAddSupported : Bool)
    (rowCount : Nat) (cutCells : List String) (focusedCell : Option CellPos)
    (text : String) :
    ((jsTrim text).isEmpty = false →
      0 < pasteRowsNeeded cols rowCount focusedCell text →
      rowsAddSupported = true →
      pasteFromClipboard cols parseVal vnull false true rowsAddSupported rowCount
          cutCells focusedCell text =
        .dialog (pasteRowsNeeded cols rowCount focusedCell text) text) ∧
    ((jsTrim text).isEmpty = false →
      pasteRowsNeeded cols rowCount focusedCell text ≤ 0 →
      pasteFromClipboard cols parseVal vnull false true rowsAddSupported rowCount
          cutCells focusedCell text =
        .applied (performPaste cols parseVal vnull rowCount cutCells text
          (pasteStartPos cols focusedCell)
          (jsFindIndex cols (pasteStartPos cols focusedCell).columnId))) ∧
    (onPasteWithoutExpansion cols parseVal vnull rowCount cutCells focusedCell
        text =
      performPaste cols parseVal vnull rowCount cutCells text
        (pasteStartPos cols focusedCell)
        (jsFindIndex cols (pasteStartPos cols focusedCell).columnId)) ∧
    (∀ u ∈ performPasteUpdates cols parseVal rowCount text
        (pasteStartPos cols focusedCell)
        (jsFindIndex cols (pasteStartPos cols focusedCell).columnId),
      u.rowIndex < (rowCount : Int)) := by
  refine ⟨?_, ?_, rfl, ?_⟩
  · intro htext hpos hsupp
    subst hsupp
    unfold pasteFromClipboard
    simp [htext, hpos]
  · intro htext hpos
    have hneg : ¬(pasteRowsNeeded cols rowCount focusedCell text > 0) := by omega
    unfold pasteFromClipboard
    simp [htext, hneg]
  · intro u hu
    exact performPasteUpdatesAux_row_lt cols parseVal rowCount _ _
      (splitLines text) 0 u hu

/-- **C2 (witness).** The spec scenario: 3 rows, focus at row 2, pasting
a 4-row matrix gives `rowsNeeded = 2 + 4 - 3 = 3` and opens the dialog
with that count and the clipboard text. -/
theorem pasteFromClipboard_amended_witness :
    pasteFromClipboard (V := String) ["a"] (fun s _ => s) "" false true true 3 []
        (some ⟨2, "a"⟩) "p\nq\nr\ns" = .dialog 3 "p\nq\nr\ns" := by
  have h := (pasteFromClipboard_amended ["a"] (fun s _ => s) "" true 3 []
    (some ⟨2, "a"⟩) "p\nq\nr\ns").1 (by decide) (by decide) rfl
  have hrn : pasteRowsNeeded ["a"] 3 (some ⟨2, "a"⟩) "p\nq\nr\ns" = 3 := by decide
  rw [hrn] at h
  exact h

/-! ### Lemmas: search folds -/

theorem insertKey_mem (l : List String) (k x : String) :
    x ∈ insertKey l k ↔ x ∈ l ∨ x = k := by
  unfold insertKey
  by_cases h : l.contains k
  · rw [if_pos h]
    constructor
    · exact fun hx => Or.inl hx
    · rintro (hx | rfl)
      · exact hx
      · simpa using h
  · rw [if_neg h]
    simp

theorem searchFoldInner_fst (p : Nat → String → Bool)
    (display : Nat → String → String) (r : Nat) :
    ∀ (cs : List String) (acc : List CellPos × List String),
      (cs.foldl (fun acc2 c =>
        if p r c then
          (acc2.1 ++ [(⟨(r : Int), c⟩ : CellPos)],
           insertKey acc2.2 (getCellKey (r : Int) c))
        else acc2) acc).1 =
      acc.1 ++ (cs.filter (p r)).map (fun c => (⟨(r : Int), c⟩ : CellPos)) := by
  intro cs
  induction cs with
  | nil => intro acc; simp
  | cons c rest ih =>
    intro acc
    by_cases h : p r c
    · rw [List.foldl_cons, if_pos h, ih, List.filter_cons_of_pos h]
      simp
    · rw [List.foldl_cons, if_neg h, ih,
        List.filter_cons_of_neg (by simpa using h)]

theorem searchFoldInner_snd (p : Nat → String → Bool)
    (display : Nat → String → String) (r : Nat) :
    ∀ (cs : List String) (acc : List CellPos × List String) (k : String),
      (k ∈ (cs.foldl (fun acc2 c =>
        if p r c then
          (acc2.1 ++ [(⟨(r : Int), c⟩ : CellPos)],
           insertKey acc2.2 (getCellKey (r : Int) c))
        else acc2) acc).2 ↔
      k ∈ acc.2 ∨ ∃ c ∈ cs, p r c = true ∧ k = getCellKey (r : Int) c) := by
  intro cs
  induction cs with
  | nil => intro acc k; simp
  | cons c rest ih =>
    intro acc k
    by_cases h : p r c
    · rw [List.foldl_cons, if_pos h, ih]
      constructor
      · rintro (hacc | ⟨c', hc', hp', rfl⟩)
        · rcases (insertKey_mem _ _ _).mp hacc with hacc' | rfl
          · exact Or.inl hacc'
          · exact Or.inr ⟨c, List.mem_cons_self c rest, h, rfl⟩
        · exact Or.inr ⟨c', List.mem_cons_of_mem c hc', hp', rfl⟩
      · rintro (hacc | ⟨c', hc', hp', rfl⟩)
        · exact Or.inl ((insertKey_mem _ _ _).mpr (Or.inl hacc))
        · rcases List.mem_cons.mp hc' with rfl | hc''
          · exact Or.inl ((insertKey_mem _ _ _).mpr (Or.inr rfl))
          · exact Or.inr ⟨c', hc'', hp', rfl⟩
    · rw [List.foldl_cons, if_neg h, ih]
      constructor
      · rintro (hacc | ⟨c', hc', hp', rfl⟩)
        · exact Or.inl hacc
        · exact Or.inr ⟨c', List.mem_cons_of_mem c hc', hp', rfl⟩
      · rintro (hacc | ⟨c', hc', hp', rfl⟩)
        · exact Or.inl hacc
        · rcases List.mem_cons.mp hc' with rfl | hc''
          · exact absurd hp' (by simpa using h)
          · exact Or.inr ⟨c', hc'', hp', rfl⟩

theorem searchFoldOuter_fst (cols : List String) (p : Nat → String → Bool)
    (display : Nat → String → String) :
    ∀ (rs : List Nat) (acc : List CellPos × List String),
      (rs.foldl (fun acc r => cols.foldl (fun acc2 c =>
        if p r c then
          (acc2.1 ++ [(⟨(r : Int), c⟩ : CellPos)],
           insertKey acc2.2 (getCellKey (r : Int) c))
        else acc2) acc) acc).1 =
      acc.1 ++ rs.flatMap (fun r =>
        (cols.filter (p r)).map (fun c => (⟨(r : Int), c⟩ : CellPos))) := by
  intro rs
  induction rs with
  | nil => intro acc; simp
  | cons r rest ih =>
    intro acc
    rw [List.foldl_cons, ih, searchFoldInner_fst p display r]
    simp

theorem searchFoldOuter_snd (cols : List String) (p : Nat → String → Bool)
    (display : Nat → String → String) :
    ∀ (rs : List Nat) (acc : List CellPos × List String) (k : String),
      (k ∈ (rs.foldl (fun acc r => cols.foldl (fun acc2 c =>
        if p r c then
          (acc2.1 ++ [(⟨(r : Int), c⟩ : CellPos)],
           insertKey acc2.2 (getCellKey (r : Int) c))
        else acc2) acc) acc).2 ↔
      k ∈ acc.2 ∨ ∃ r ∈ rs, ∃ c ∈ cols, p r c = true ∧ k = getCellKey (r : Int) c) := by
  intro rs
  induction rs with
  | nil => intro acc k; simp
  | cons r rest ih =>
    intro acc k
    rw [List.foldl_cons, ih, searchFoldInner_snd p display r]
    constructor
    · rintro ((hacc | ⟨c, hc, hp, rfl⟩) | ⟨r', hr', c, hc, hp, rfl⟩)
      · exact Or.inl hacc
      · exact Or.inr ⟨r, List.mem_cons_self r rest, c, hc, hp, rfl⟩
      · exact Or.inr ⟨r', List.mem_cons_of_mem r hr', c, hc, hp, rfl⟩
    · rintro (hacc | ⟨r', hr', c, hc, hp, rfl⟩)
      · exact Or.inl (Or.inl hacc)
      · rcases List.mem_cons.mp hr' with rfl | hr''
        · exact Or.inl (Or.inr ⟨c, hc, hp, rfl⟩)
        · exact Or.inr ⟨r', hr'', c, hc, hp, rfl⟩

/-- **C4 (counterexample).** The claim fails for whitespace-only queries:
`" "` is a non-empty query, but `performSearch` bails out on
`!query.trim()` and returns no matches, although the brute-force set for
`" "` over a cell displaying `"x y"` is non-empty. -/
theorem performSearch_blank_counterexample :
    performSearch ["a"] 1 (fun _ _ => "x y") " " = ⟨[], [], 0⟩ ∧
      bruteForceMatches ["a"] 1 (fun _ _ => "x y") " " = [⟨0, "a"⟩] ∧
      (" " : String) ≠ "" := by
  refine ⟨by decide, by decide, by decide⟩

/-- **C4 (amended).** A query with blank trim (in particular the empty
query) yields an empty match list, a cleared match set and `matchIndex`
0; a query with non-blank trim yields exactly the row-major brute-force
match list of (row, navigable column) pairs whose display value contains
the query case-insensitively, with the match set equal (as a key set) to
the key-set of that list and `matchIndex` reset to 0. -/
theorem performSearch_amended (cols : List String) (rowCount : Nat)
    (display : Nat → String → String) (query : String) :
    ((jsTrim query).isEmpty = true →
      performSearch cols rowCount display query = ⟨[], [], 0⟩) ∧
    ((jsTrim query).isEmpty = false →
      (performSearch cols rowCount display query).searchMatches =
        bruteForceMatches cols rowCount display query ∧
      (∀ k, k ∈ (performSearch cols rowCount display query).searchMatchSet ↔
        ∃ pos ∈ bruteForceMatches cols rowCount display query,
          k = getCellKey pos.rowIndex pos.columnId) ∧
      (performSearch cols rowCount display query).matchIndex = 0) := by
  constructor
  · intro h
    unfold performSearch
    rw [h]
    rfl
  · intro h
    unfold performSearch
    rw [h, if_neg (show ¬(false = true) by decide)]
    dsimp only
    refine ⟨?_, ?_, rfl⟩
    · rw [searchFoldOuter_fst cols
        (fun r c => strIncludes (jsToLower (display r c)) (jsToLower query))
        display (List.range rowCount) ([], [])]
      rfl
    · intro k
      rw [searchFoldOuter_snd cols
        (fun r c => strIncludes (jsToLower (display r c)) (jsToLower query))
        display (List.range rowCount) ([], []) k]
      unfold bruteForceMatches
      constructor
      · rintro (habs | ⟨r, hr, c, hc, hp, rfl⟩)
        · simp at habs
        · refine ⟨⟨(r : Int), c⟩, ?_, rfl⟩
          rw [List.mem_flatMap]
          exact ⟨r, hr, List.mem_map_of_mem _ (List.mem_filter.mpr ⟨hc, hp⟩)⟩
      · rintro ⟨pos, hpos, rfl⟩
        rw [List.mem_flatMap] at hpos
        rcases hpos with ⟨r, hr, hmap⟩
        rcases List.mem_map.mp hmap with ⟨c, hcf, rfl⟩
        rcases List.mem_filter.mp hcf with ⟨hc, hp⟩
        exact Or.inr ⟨r, hr, c, hc, hp, rfl⟩

/-- **C4 (witness).** The spec scenario: rows `foo`, `bar`, `foobar` in a
single column; searching `"foo"` matches rows 0 and 2 in order, equal to
the brute-force list, with `matchIndex` 0. -/
theorem performSearch_amended_witness :
    (performSearch ["a"] 3
        (fun r _ => if r = 0 then "foo" else if r = 1 then "bar" else "foobar")
        "foo").searchMatches =
      bruteForceMatches ["a"] 3
        (fun r _ => if r = 0 then "foo" else if r = 1 then "bar" else "foobar")
        "foo" ∧
    (performSearch ["a"] 3
        (fun r _ => if r = 0 then "foo" else if r = 1 then "bar" else "foobar")
        "foo").matchIndex = 0 := by
  have h := (performSearch_amended ["a"] 3
    (fun r _ => if r = 0 then "foo" else if r = 1 then "bar" else "foobar")
    "foo").2 (by decide)
  exact ⟨h.1, h.2.2⟩

/-! ### Lemmas: selection fills -/

theorem mem_intRange {x lo hi : Int} : x ∈ intRange lo hi ↔ lo ≤ x ∧ x ≤ hi := by
  unfold intRange
  simp only [List.mem_map, List.mem_range]
  constructor
  · rintro ⟨k, hk, rfl⟩
    omega
  · rintro ⟨h1, h2⟩
    exact ⟨(x - lo).toNat, by omega, by omega⟩

theorem colAt_mem {cols : List String} {i : Int} {c : String}
    (h : colAt cols i = some c) : c ∈ cols := by
  unfold colAt at h
  by_cases hi : i < 0
  · rw [if_pos hi] at h
    exact absurd h (by simp)
  · rw [if_neg hi] at h
    exact List.get?_mem h

theorem string_isEmpty_false {s : String} (h : s ≠ "") : s.isEmpty = false := by
  rcases hb : s.isEmpty with _ | _
  · rfl
  · exact absurd ((String.isEmpty_iff s).mp hb) h

theorem selFoldInner_mem (cols : List String) (row : Int) :
    ∀ (colIdxs : List Int) (acc : List String) (k : String),
      (k ∈ colIdxs.foldl (fun acc2 col =>
        match colAt cols col with
        | some colId =>
          if !colId.isEmpty then insertKey acc2 (getCellKey row colId) else acc2
        | none => acc2) acc ↔
      k ∈ acc ∨ ∃ col ∈ colIdxs, ∃ colId, colAt cols col = some colId ∧
        colId.isEmpty = false ∧ k = getCellKey row colId) := by
  intro colIdxs
  induction colIdxs with
  | nil => intro acc k; simp
  | cons col rest ih =>
    intro acc k
    rw [List.foldl_cons]
    cases hc : colAt cols col with
    | none =>
      rw [ih]
      constructor
      · rintro (hacc | ⟨col', hcol', colId, hats, hemp, rfl⟩)
        · exact Or.inl hacc
        · exact Or.inr ⟨col', List.mem_cons_of_mem col hcol', colId, hats, hemp, rfl⟩
      · rintro (hacc | ⟨col', hcol', colId, hats, hemp, rfl⟩)
        · exact Or.inl hacc
        · rcases List.mem_cons.mp hcol' with rfl | hcol''
          · rw [hc] at hats
            exact absurd hats (by simp)
          · exact Or.inr ⟨col', hcol'', colId, hats, hemp, rfl⟩
    | some colId =>
      dsimp only
      by_cases hemp : colId.isEmpty
      · rw [if_neg (by simp [hemp]), ih]
        constructor
        · rintro (hacc | ⟨col', hcol', colId', hats, hemp', rfl⟩)
          · exact Or.inl hacc
          · exact Or.inr ⟨col', List.mem_cons_of_mem col hcol', colId', hats, hemp', rfl⟩
        · rintro (hacc | ⟨col', hcol', colId', hats, hemp', rfl⟩)
          · exact Or.inl hacc
          · rcases List.mem_cons.mp hcol' with rfl | hcol''
            · rw [hc] at hats
              have heq : colId' = colId := by
                injection hats with he
                exact he.symm
              subst heq
              rw [hemp] at hemp'
              exact absurd hemp' (by simp)
            · exact Or.inr ⟨col', hcol'', colId', hats, hemp', rfl⟩
      · have hemp' : colId.isEmpty = false := by
          rcases hb : colId.isEmpty with _ | _
          · rfl
          · exact absurd hb hemp
        rw [if_pos (by simp [hemp']), ih]
        constructor
        · rintro (hacc | ⟨col', hcol', colId', hats, hemp2, rfl⟩)
          · rcases (insertKey_mem _ _ _).mp hacc with hacc' | rfl
            · exact Or.inl hacc'
            · exact Or.inr ⟨col, List.mem_cons_self col rest, colId, hc, hemp', rfl⟩
          · exact Or.inr ⟨col', List.mem_cons_of_mem col hcol', colId', hats, hemp2, rfl⟩
        · rintro (hacc | ⟨col', hcol', colId', hats, hemp2, rfl⟩)
          · exact Or.inl ((insertKey_mem _ _ _).mpr (Or.inl hacc))
          · rcases List.mem_cons.mp hcol' with rfl | hcol''
            · rw [hc] at hats
              have heq : colId' = colId := by
                injection hats with he
                exact he.symm
              subst heq
              exact Or.inl ((insertKey_mem _ _ _).mpr (Or.inr rfl))
            · exact Or.inr ⟨col', hcol'', colId', hats, hemp2, rfl⟩

theorem selFoldOuter_mem (cols : List String) (colIdxs : List Int) :
    ∀ (rowIdxs : List Int) (acc : List String) (k : String),
      (k ∈ rowIdxs.foldl (fun acc row => colIdxs.foldl (fun acc2 col =>
        match colAt cols col with
        | some colId =>
          if !colId.isEmpty then insertKey acc2 (getCellKey row colId) else acc2
        | none => acc2) acc) acc ↔
      k ∈ acc ∨ ∃ row ∈ rowIdxs, ∃ col ∈ colIdxs, ∃ colId,
        colAt cols col = some colId ∧ colId.isEmpty = false ∧
          k = getCellKey row colId) := by
  intro rowIdxs
  induction rowIdxs with
  | nil => intro acc k; simp
  | cons row rest ih =>
    intro acc k
    rw [List.foldl_cons, ih, selFoldInner_mem cols row colIdxs]
    constructor
    · rintro ((hacc | ⟨col, hcol, colId, hats, hemp, rfl⟩) |
        ⟨row', hrow', col, hcol, colId, hats, hemp, rfl⟩)
      · exact Or.inl hacc
      · exact Or.inr ⟨row, List.mem_cons_self row rest, col, hcol, colId, hats, hemp, rfl⟩
      · exact Or.inr ⟨row', List.mem_cons_of_mem row hrow', col, hcol, colId, hats,
          hemp, rfl⟩
    · rintro (hacc | ⟨row', hrow', col, hcol, colId, hats, hemp, rfl⟩)
      · exact Or.inl (Or.inl hacc)
      · rcases List.mem_cons.mp hrow' with rfl | hrow''
        · exact Or.inl (Or.inr ⟨col, hcol, colId, hats, hemp, rfl⟩)
        · exact Or.inr ⟨row', hrow'', col, hcol, colId, hats, hemp, rfl⟩

theorem mem_selectRangeCells (cols : List String) (start e : CellPos) (k : String) :
    k ∈ selectRangeCells cols start e ↔
      ∃ row ∈ intRange (min start.rowIndex e.rowIndex)
        (max start.rowIndex e.rowIndex),
      ∃ col ∈ intRange
        (min (jsFindIndex cols start.columnId) (jsFindIndex cols e.columnId))
        (max (jsFindIndex cols start.columnId) (jsFindIndex cols e.columnId)),
      ∃ colId, colAt cols col = some colId ∧ colId.isEmpty = false ∧
        k = getCellKey row colId := by
  unfold selectRangeCells
  rw [selFoldOuter_mem]
  simp

theorem rectFillMem_iff (cols : List String) (hcols : "" ∉ cols)
    (rg : CellPos × CellPos) (k : String) :
    rectFillMem cols rg k = true ↔
      ∃ row ∈ intRange (min rg.1.rowIndex rg.2.rowIndex)
        (max rg.1.rowIndex rg.2.rowIndex),
      ∃ col ∈ intRange
        (min (jsFindIndex cols rg.1.columnId) (jsFindIndex cols rg.2.columnId))
        (max (jsFindIndex cols rg.1.columnId) (jsFindIndex cols rg.2.columnId)),
      ∃ colId, colAt cols col = some colId ∧ colId.isEmpty = false ∧
        k = getCellKey row colId := by
  unfold rectFillMem
  rw [List.any_eq_true]
  constructor
  · rintro ⟨row, hrow, hany⟩
    rw [List.any_eq_true] at hany
    rcases hany with ⟨col, hcol, hmatch⟩
    cases hc : colAt cols col with
    | none => rw [hc] at hmatch; exact absurd hmatch (by simp)
    | some colId =>
      rw [hc] at hmatch
      have hk : k = getCellKey row colId := by simpa using hmatch
      have hne : colId ≠ "" := fun hid => hcols (hid ▸ colAt_mem hc)
      exact ⟨row, hrow, col, hcol, colId, hc, string_isEmpty_false hne, hk⟩
  · rintro ⟨row, hrow, col, hcol, colId, hats, hemp, rfl⟩
    refine ⟨row, hrow, ?_⟩
    rw [List.any_eq_true]
    refine ⟨col, hcol, ?_⟩
    rw [hats]
    simp

theorem eraseKey_contains_self (l : List String) (k : String) :
    (eraseKey l k).contains k = false := by
  have : k ∉ eraseKey l k := by
    unfold eraseKey
    intro hin
    exact absurd (List.mem_filter.mp hin).2 (by simp)
  simpa using this

theorem eraseKey_contains_of_ne (l : List String) (k x : String) (h : x ≠ k) :
    (eraseKey l k).contains x = l.contains x := by
  unfold eraseKey
  rcases hb : l.contains x with _ | _
  · have hx : x ∉ l := by simpa using hb
    have : x ∉ l.filter (fun y => y ≠ k) := fun hin => hx (List.mem_filter.mp hin).1
    simpa using this
  · have hx : x ∈ l := by simpa using hb
    have : x ∈ l.filter (fun y => y ≠ k) := List.mem_filter.mpr ⟨hx, by simpa using h⟩
    simpa using this

theorem insertKey_contains_self (l : List String) (k : String) :
    (insertKey l k).contains k = true := by
  have : k ∈ insertKey l k := (insertKey_mem _ _ _).mpr (Or.inr rfl)
  simpa using this

theorem insertKey_contains_of_ne (l : List String) (k x : String) (h : x ≠ k) :
    (insertKey l k).contains x = l.contains x := by
  rcases hb : l.contains x with _ | _
  · have hx : x ∉ l := by simpa using hb
    have : x ∉ insertKey l k := by
      intro hin
      rcases (insertKey_mem _ _ _).mp hin with h1 | h2
      · exact hx h1
      · exact h h2
    simpa using this
  · have hx : x ∈ l := by simpa using hb
    have : x ∈ insertKey l k := (insertKey_mem _ _ _).mpr (Or.inl hx)
    simpa using this

/-- State of the C3 counterexample trace: plain click on `(0, "a")`,
mouse up, shift-click on `(1, "b")` (range selection), then
ctrl/cmd-click on `(0, "a")` (toggle). -/
def c3ViolState : GridState :=
  onCellMouseDown ["a", "b"]
    (onCellMouseDown ["a", "b"]
      (onCellMouseUp
        (onCellMouseDown ["a", "b"] initialGridState 0 "a" false false))
      1 "b" false true)
    0 "a" true false

/-- **C3 (counterexample).** A reachable engine state violates the
invariant: after a 2×2 range selection, a ctrl/cmd-click toggle removes
`"0:a"` from `selectedCells` while `selectionRange` stays non-null, so
`selectedCells` is no longer the rectangular fill of the range — the
toggle does not preserve the invariant. -/
theorem selection_invariant_counterexample :
    Reach ["a", "b"] c3ViolState ∧
      c3ViolState.selectionState.selectionRange = some (⟨0, "a"⟩, ⟨1, "b"⟩) ∧
      rectFillMem ["a", "b"] (⟨0, "a"⟩, ⟨1, "b"⟩) "0:a" = true ∧
      c3ViolState.selectionState.selectedCells.contains "0:a" = false := by
  refine ⟨?_, by decide, by decide, by decide⟩
  exact Reach.mouseDown _ _ _ _ _ (Reach.mouseDown _ _ _ _ _
    (Reach.mouseUp _ (Reach.mouseDown _ _ _ _ _ Reach.init)))

/-- **C3 (amended).** Immediately after any `selectRange` call,
`selectedCells` equals (as a key set) the rectangular fill of the stored
range intersected with the navigable columns — that part of the invariant
is established by every range selection.  The ctrl/cmd-click toggle flips
exactly one key's membership in `selectedCells` while leaving
`selectionRange` and the anchor untouched, and therefore does **not**
preserve the invariant when a range is present (as the counterexample
shows); the invariant is guaranteed only at the moment a range selection
is (re)computed. -/
theorem selection_invariant_amended (cols : List String) (hcols : "" ∉ cols)
    (st : SelState) (start e : CellPos) (keep : Bool) :
    ((selectRange cols st start e keep).selectionRange = some (start, e)) ∧
    (∀ k, k ∈ (selectRange cols st start e keep).selectedCells ↔
      rectFillMem cols (start, e) k = true) ∧
    (∀ (g : GridState) (r : Int) (c : String) (sh : Bool),
      (onCellMouseDown cols g r c true sh).selectionState.selectionRange =
        g.selectionState.selectionRange ∧
      (onCellMouseDown cols g r c true sh).selectionAnchor = g.selectionAnchor ∧
      (onCellMouseDown cols g r c true sh).selectionState.selectedCells.contains
          (getCellKey r c) =
        !g.selectionState.selectedCells.contains (getCellKey r c) ∧
      (∀ k, k ≠ getCellKey r c →
        ((onCellMouseDown cols g r c true sh).selectionState.selectedCells.contains
            k =
          g.selectionState.selectedCells.contains k))) := by
  refine ⟨rfl, ?_, ?_⟩
  · intro k
    show k ∈ selectRangeCells cols start e ↔ _
    rw [mem_selectRangeCells, rectFillMem_iff cols hcols (start, e) k]
  · intro g r c sh
    unfold onCellMouseDown
    dsimp only
    rw [if_pos (rfl : true = true)]
    by_cases hmem : g.selectionState.selectedCells.contains (getCellKey r c)
    · rw [if_pos hmem]
      refine ⟨rfl, rfl, ?_, ?_⟩
      · rw [hmem, eraseKey_contains_self]
        rfl
      · intro k hk
        exact eraseKey_contains_of_ne _ _ _ hk
    · rw [if_neg hmem]
      have hmem' : g.selectionState.selectedCells.contains (getCellKey r c) = false := by
        rcases hb : g.selectionState.selectedCells.contains (getCellKey r c) with _ | _
        · rfl
        · exact absurd hb hmem
      refine ⟨rfl, rfl, ?_, ?_⟩
      · rw [hmem', insertKey_contains_self]
        rfl
      · intro k hk
        exact insertKey_contains_of_ne _ _ _ hk

/-- **C3 (witness).** The amended theorem at a concrete range selection
over columns `[a, b]`: the fill invariant holds right after
`selectRange((0,a), (1,b))`. -/
theorem selection_invariant_amended_witness :
    (selectRange ["a", "b"] ⟨[], none, false⟩ ⟨0, "a"⟩ ⟨1, "b"⟩
        false).selectionRange = some (⟨0, "a"⟩, ⟨1, "b"⟩) ∧
      ("0:b" ∈ (selectRange ["a", "b"] ⟨[], none, false⟩ ⟨0, "a"⟩ ⟨1, "b"⟩
        false).selectedCells ↔
        rectFillMem ["a", "b"] (⟨0, "a"⟩, ⟨1, "b"⟩) "0:b" = true) := by
  have h := selection_invariant_amended ["a", "b"] (by decide)
    ⟨[], none, false⟩ ⟨0, "a"⟩ ⟨1, "b"⟩ false
  exact ⟨h.1, h.2.1 "0:b"⟩

/-! ### Lemmas: copy bounds and the dense rectangle -/

theorem jsFindIndex_bounds {cols : List String} {c : String} (h : c ∈ cols) :
    0 ≤ jsFindIndex cols c ∧ jsFindIndex cols c < (cols.length : Int) := by
  have hsome : (cols.findIdx? (· = c)).isSome = true := by
    rw [List.findIdx?_isSome]
    exact List.any_eq_true.mpr ⟨c, h, by simp⟩
  unfold jsFindIndex
  rcases ho : cols.findIdx? (· = c) with _ | i
  · rw [ho] at hsome
    simp at hsome
  · have hb := (List.findIdx?_eq_some_iff_getElem.mp ho).1
    constructor
    · exact Int.natCast_nonneg i
    · show (i : Int) < (cols.length : Int)
      exact_mod_cast hb

theorem colAt_of_bounds {cols : List String} {i : Int} (h0 : 0 ≤ i)
    (hlen : i < (cols.length : Int)) :
    ∃ colId, colAt cols i = some colId ∧ colId ∈ cols := by
  unfold colAt
  rw [if_neg (by omega)]
  rcases hg : cols.get? i.toNat with _ | colId
  · rw [List.get?_eq_getElem?, List.getElem?_eq_none_iff] at hg
    omega
  · exact ⟨colId, rfl, List.get?_mem hg⟩

theorem filterMap_eq_map_of {α β : Type} (l : List α) (f : α → Option β)
    (g : α → β) (h : ∀ x ∈ l, f x = some (g x)) : l.filterMap f = l.map g := by
  induction l with
  | nil => rfl
  | cons a t ih =>
    rw [List.filterMap_cons, h a (List.mem_cons_self a t), List.map_cons,
      ih (fun x hx => h x (List.mem_cons_of_mem a hx))]

theorem copyBoundsFold_eq (cols : List String) :
    ∀ (sel : List String) (acc : Int × Int × Int × Int),
      (∀ k ∈ sel, 0 ≤ jsFindIndex cols (parseCellKey k).columnId) →
      sel.foldl (copyBoundsStep cols) (some acc) =
        some ((sel.map parseCellKey).foldl (specBoundsStep cols) acc) := by
  intro sel
  induction sel with
  | nil => intro acc _; rfl
  | cons k rest ih =>
    intro acc h
    obtain ⟨a, b, c, d⟩ := acc
    rw [List.foldl_cons, List.map_cons, List.foldl_cons]
    have hk : 0 ≤ jsFindIndex cols (parseCellKey k).columnId :=
      h k (List.mem_cons_self k rest)
    have hstep : copyBoundsStep cols (some (a, b, c, d)) k =
        some (specBoundsStep cols (a, b, c, d) (parseCellKey k)) := by
      unfold copyBoundsStep specBoundsStep
      dsimp only
      rw [if_pos hk]
    rw [hstep]
    exact ih _ (fun x hx => h x (List.mem_cons_of_mem k hx))

theorem copyBounds_eq_specBounds (cols : List String) (sel : List String)
    (h : ∀ k ∈ sel, 0 ≤ jsFindIndex cols (parseCellKey k).columnId) :
    copyBounds cols sel = specBounds cols sel := by
  cases sel with
  | nil => rfl
  | cons k rest =>
    unfold copyBounds specBounds
    rw [List.foldl_cons, List.map_cons]
    have hk : 0 ≤ jsFindIndex cols (parseCellKey k).columnId :=
      h k (List.mem_cons_self k rest)
    have hstep : copyBoundsStep cols none k =
        some ((parseCellKey k).rowIndex, (parseCellKey k).rowIndex,
          jsFindIndex cols (parseCellKey k).columnId,
          jsFindIndex cols (parseCellKey k).columnId) := by
      unfold copyBoundsStep
      dsimp only
      rw [if_pos hk]
    rw [hstep, copyBoundsFold_eq cols rest _
      (fun x hx => h x (List.mem_cons_of_mem k hx))]

theorem specBoundsFold_inv (cols : List String) (rowCount : Nat) :
    ∀ (qs : List CellPos) (acc : Int × Int × Int × Int),
      (0 ≤ acc.1 ∧ acc.2.1 < (rowCount : Int) ∧ 0 ≤ acc.2.2.1 ∧
        acc.2.2.2 < (cols.length : Int)) →
      (∀ q ∈ qs, 0 ≤ q.rowIndex ∧ q.rowIndex < (rowCount : Int) ∧
        q.columnId ∈ cols) →
      (0 ≤ (qs.foldl (specBoundsStep cols) acc).1 ∧
        (qs.foldl (specBoundsStep cols) acc).2.1 < (rowCount : Int) ∧
        0 ≤ (qs.foldl (specBoundsStep cols) acc).2.2.1 ∧
        (qs.foldl (specBoundsStep cols) acc).2.2.2 < (cols.length : Int)) := by
  intro qs
  induction qs with
  | nil => intro acc hacc _; exact hacc
  | cons q rest ih =>
    intro acc hacc hq
    rw [List.foldl_cons]
    apply ih
    · obtain ⟨hq1, hq2, hq3⟩ := hq q (List.mem_cons_self q rest)
      obtain ⟨hc1, hc2⟩ := jsFindIndex_bounds hq3
      unfold specBoundsStep
      obtain ⟨a, b, c, d⟩ := acc
      dsimp only at hacc ⊢
      omega
    · exact fun x hx => hq x (List.mem_cons_of_mem q hx)

/-- **C7 (confirmed).** For every non-empty, possibly sparse selection
whose cells are in range (each key parses to a row below the row count
and a navigable column; column ids are non-empty): `copySelectedCells`
emits exactly the dense TSV rectangle spanning the bounding box of the
selected cells over the navigable columns — each selected cell rendered
through the copy formatter and every unselected cell inside the box as
the empty string. -/
theorem copySelectedCells_dense_rect {V : Type} (cols : List String)
    (rowCount : Nat) (selected : List String) (value : Int → String → V)
    (fmt : V → String) (hsel : selected ≠ []) (hcols : "" ∉ cols)
    (hvalid : ∀ k ∈ selected, 0 ≤ (parseCellKey k).rowIndex ∧
      (parseCellKey k).rowIndex < (rowCount : Int) ∧
      (parseCellKey k).columnId ∈ cols) :
    copySelectedCells cols rowCount selected value fmt =
      specCopyTSV cols selected value fmt := by
  have hge : ∀ k ∈ selected, 0 ≤ jsFindIndex cols (parseCellKey k).columnId :=
    fun k hk => (jsFindIndex_bounds (hvalid k hk).2.2).1
  have hbeq : copyBounds cols selected = specBounds cols selected :=
    copyBounds_eq_specBounds cols selected hge
  obtain ⟨k0, rest, rfl⟩ := List.exists_cons_of_ne_nil hsel
  have hbsome : ∃ bd, specBounds cols (k0 :: rest) = some bd := by
    unfold specBounds
    rw [List.map_cons]
    exact ⟨_, rfl⟩
  obtain ⟨⟨a, b, c, d⟩, hbd⟩ := hbsome
  have hinv : 0 ≤ a ∧ b < (rowCount : Int) ∧ 0 ≤ c ∧ d < (cols.length : Int) := by
    have h0 := hvalid k0 (List.mem_cons_self k0 rest)
    have hc0 := jsFindIndex_bounds h0.2.2
    have := specBoundsFold_inv cols rowCount (rest.map parseCellKey)
      ((parseCellKey k0).rowIndex, (parseCellKey k0).rowIndex,
        jsFindIndex cols (parseCellKey k0).columnId,
        jsFindIndex cols (parseCellKey k0).columnId)
      (by dsimp only; exact ⟨h0.1, h0.2.1, hc0.1, hc0.2⟩)
      (by
        intro q hq
        rcases List.mem_map.mp hq with ⟨k, hk, rfl⟩
        have hv := hvalid k (List.mem_cons_of_mem k0 hk)
        exact ⟨hv.1, hv.2.1, hv.2.2⟩)
    unfold specBounds at hbd
    rw [List.map_cons] at hbd
    have hbd' := Option.some.inj hbd
    rw [hbd'] at this
    exact this
  have hlines : copyLines cols rowCount (k0 :: rest) value fmt =
      (intRange a b).map (fun row =>
        joinSep '\t' ((intRange c d).map (fun col =>
          let colId := (colAt cols col).getD ""
          if (k0 :: rest).contains (getCellKey row colId) then
            fmt (value row colId)
          else ""))) := by
    unfold copyLines
    rw [hbeq, hbd]
    apply filterMap_eq_map_of
    intro row hrow
    rw [mem_intRange] at hrow
    rw [if_pos (by omega)]
    congr 1
    congr 1
    apply filterMap_eq_map_of
    intro col hcol
    rw [mem_intRange] at hcol
    obtain ⟨colId, hats, hmemc⟩ := @colAt_of_bounds cols col (by omega) (by omega)
    have hne : colId ≠ "" := fun hid => hcols (hid ▸ hmemc)
    have hemp := string_isEmpty_false hne
    simp only [hats, hemp, Option.getD_some, Bool.false_eq_true, if_false]
  unfold copySelectedCells specCopyTSV
  rw [if_neg (by simp), hbd, hlines]

/-- **C7 (witness).** The spec scenario: selecting `(0, "a")` and
`(2, "c")` under column order `[a, b, c]` yields the dense 3×3 block. -/
theorem copySelectedCells_dense_rect_witness :
    copySelectedCells (V := String) ["a", "b", "c"] 3 ["0:a", "2:c"]
        (fun r c => toString r ++ c) (fun v => v) =
      specCopyTSV ["a", "b", "c"] ["0:a", "2:c"]
        (fun r c => toString r ++ c) (fun v => v) :=
  copySelectedCells_dense_rect ["a", "b", "c"] 3 ["0:a", "2:c"]
    (fun r c => toString r ++ c) (fun v => v)
    (by decide) (by decide) (by decide)

end DataGrid

